import Mathlib

/-!
# Verification of the devrunner runner-resolution and script-dispatch engine

Shallow embedding of the Rust sources (`src/fuzzy.rs`, `src/scripts.rs`,
`src/main.rs`, `src/detectors/{make,swift,zig}.rs`) together with proofs of
the specified properties.

Modelling conventions:
* Rust `char` (a Unicode scalar value) is Lean `Char`; Rust `String`
  is Lean `String` (a list of Unicode scalar values); Rust `str::len`
  (UTF-8 byte length) is `String.utf8ByteSize`.
* `f64` similarity scores are modelled exactly in `ℚ`: every score the code
  produces is of the form `1 - d / m` for small naturals `d ≤ m`.
* Filesystem reads are passed in explicitly: a config file is modelled as
  `Option (Option ...)` — `none` when absent, `some none` when unreadable or
  unparsable, `some (some v)` when it parses to the value `v`.
* `str::to_lowercase` is modelled as character-wise `Char.toLower`.
-/

namespace Devrunner

/-! ## `src/fuzzy.rs` -/

/-- First character of a string equals `c` (Rust `str::starts_with(char)`). -/
def startsWithChar (s : String) (c : Char) : Bool :=
  match s.data with
  | [] => false
  | x :: _ => x == c

/-- A string contains the character `c` (Rust `str::contains(char)`). -/
def strContains (s : String) (c : Char) : Bool := s.data.contains c

/-- Longest prefix of characters satisfying `p` (models Rust `&line[..pos]`
where `pos = line.find(c)` for the predicate rejecting `c`). -/
def strTakeWhile (p : Char → Bool) (s : String) : String := ⟨s.data.takeWhile p⟩

/-- Model of Rust `str::trim`: strip leading and trailing whitespace. -/
def strTrim (s : String) : String :=
  ⟨((s.data.dropWhile Char.isWhitespace).reverse.dropWhile Char.isWhitespace).reverse⟩

/-- Substitution cost used by the DP: `if a_chars[i-1] == b_chars[j-1] { 0 } else { 1 }`. -/
def editCost (x y : Char) : Nat := if x = y then 0 else 1

/-- Inner loop of the reference edit-distance function `lev` (recursion over
the second string, with `f` the distances from the tail of the first string
and `alen` that tail's length). -/
def levGo (f : List Char → Nat) (x : Char) (alen : Nat) : List Char → Nat
  | [] => alen + 1
  | y :: bs => min (f (y :: bs) + 1) (min (levGo f x alen bs + 1) (f bs + editCost x y))

/-- Reference characterisation of the DP table: edit distance by head
recursion.  `levD` (the literal matrix recurrence from the source) is proved
equal to it. -/
def lev : List Char → List Char → Nat
  | [] => fun b => b.length
  | x :: as => levGo (lev as) x as.length

/-- Row `i+1` of the DP matrix of `levenshtein_distance`, given row `i` as
`prevRow`: `levDGo prevRow ci b i j = matrix[i+1][j]` where `ci = a_chars[i]`. -/
def levDGo (prevRow : Nat → Nat) (ci : Char) (b : List Char) (i : Nat) : Nat → Nat
  | 0 => i + 1
  | j + 1 =>
      min (min (prevRow (j + 1) + 1) (levDGo prevRow ci b i j + 1))
        (prevRow j + editCost ci (b.getD j default))

/-- The DP matrix of `levenshtein_distance`, transcribed from the source row
by row: `levD a b i j = matrix[i][j]`, with first row `matrix[0][j] = j`,
first column `matrix[i][0] = i`, and
`matrix[i][j] = (matrix[i-1][j]+1).min(matrix[i][j-1]+1).min(matrix[i-1][j-1]+cost)`
(the recurrence equations are restated below as `levD_zero`,
`levD_succ_zero` and `levD_succ_succ`, each holding definitionally). -/
def levD (a b : List Char) : Nat → Nat → Nat
  | 0 => fun j => j
  | i + 1 => levDGo (levD a b i) (a.getD i default) b i

/-- `levenshtein_distance` from `src/fuzzy.rs`: early exits for empty strings,
then the DP matrix entry at `(len_a, len_b)`. -/
def levenshtein_distance (a b : String) : Nat :=
  if a.data.length = 0 then b.data.length
  else if b.data.length = 0 then a.data.length
  else levD a.data b.data a.data.length b.data.length

/-- `similarity_score` from `src/fuzzy.rs`.  Note the source computes
`a.len().max(b.len())` — Rust string `len`, i.e. UTF-8 **byte** length —
while the distance is computed over chars. -/
def similarity_score (a b : String) : ℚ :=
  let distance := levenshtein_distance a b
  let max_len := max a.utf8ByteSize b.utf8ByteSize
  if max_len = 0 then 1 else 1 - (distance : ℚ) / (max_len : ℚ)

/-- Model of Rust `str::to_lowercase` (character-wise lowering). -/
def lowercase (s : String) : String := ⟨s.data.map Char.toLower⟩

/-- The descending-by-score comparison used by
`matches.sort_by(|a, b| b.1.partial_cmp(&a.1).unwrap())`: the element `p` may
precede `q` exactly when `q.1 <= p.1`. -/
def scoreGE (p q : String × ℚ) : Prop := q.2 ≤ p.2

instance : DecidableRel scoreGE := fun p q => inferInstanceAs (Decidable (q.2 ≤ p.2))

/-- The pre-sort stage of `find_similar_scripts`: lowercase both sides, score
every candidate, and keep the pairs whose score is `≥ threshold` (in input
order). -/
def scored_matches (input : String) (available_scripts : List String)
    (threshold : ℚ) : List (String × ℚ) :=
  let input_lower := lowercase input
  (available_scripts.map fun script =>
      (script, similarity_score input_lower (lowercase script))).filter
    fun m => threshold ≤ m.2

/-- `find_similar_scripts` from `src/fuzzy.rs`: lowercase both sides, score,
keep scores `≥ threshold`, then stable-sort descending by score
(`slice::sort_by` is a stable sort; `insertionSort` with `scoreGE`
computes exactly the stable descending sort). -/
def find_similar_scripts (input : String) (available_scripts : List String)
    (threshold : ℚ) : List (String × ℚ) :=
  (scored_matches input available_scripts threshold).insertionSort scoreGE

/-- `suggest_script` from `src/fuzzy.rs`: head of the ranking at threshold `0.5`. -/
def suggest_script (input : String) (available_scripts : List String) : Option String :=
  (find_similar_scripts input available_scripts (1/2)).head?.map fun m => m.1

/-- `is_exact_match` from `src/fuzzy.rs`: case-insensitive membership. -/
def is_exact_match (input : String) (available_scripts : List String) : Bool :=
  let input_lower := lowercase input
  available_scripts.any fun s => lowercase s == input_lower

/-! ## `src/scripts.rs` -/

/-- `ProjectScript` from `src/scripts.rs`. -/
structure ProjectScript where
  name : String
  command : String
deriving DecidableEq, Repr

/-- `ScriptList` from `src/scripts.rs`. -/
structure ScriptList where
  scripts : List ProjectScript
  source_file : String
deriving DecidableEq, Repr

/-- Parsed JSON values as produced by `serde_json` (only the shape the source
inspects matters: objects are association lists, string values carry text). -/
inductive Json where
  | null
  | bool (b : Bool)
  | num (n : Int)
  | str (s : String)
  | arr (elems : List Json)
  | obj (fields : List (String × Json))
deriving Repr

/-- `serde_json::Value::get` with a string key. -/
def Json.get? : Json → String → Option Json
  | .obj fields, key => fields.lookup key
  | _, _ => none

/-- `serde_json::Value::as_object`. -/
def Json.asObject? : Json → Option (List (String × Json))
  | .obj fields => some fields
  | _ => none

/-- `serde_json::Value::as_str`. -/
def Json.asStr? : Json → Option String
  | .str s => some s
  | _ => none

/-- `parse_package_json_scripts` from `src/scripts.rs`.  The file argument is
the modelled filesystem/parser outcome: `none` = `package.json` absent,
`some none` = unreadable or not valid JSON, `some (some json)` = parsed. -/
def parse_package_json_scripts (package_json : Option (Option Json)) : Option ScriptList :=
  match package_json with
  | none => none
  | some none => none
  | some (some json) =>
    match (json.get? "scripts").bind Json.asObject? with
    | none => none
    | some scripts_obj =>
      some { scripts := scripts_obj.map fun nc =>
               { name := nc.1, command := (nc.2.asStr?).getD "" },
             source_file := "package.json" }

/-- Worker for `rustLines`: `acc` holds the current line's characters in
reverse; at a `'\n'` the line is emitted with one `'\r'` immediately before
the `'\n'` stripped; a non-empty final segment is emitted as-is. -/
def linesAux : List Char → List Char → List String
  | [], acc => if acc.isEmpty then [] else [⟨acc.reverse⟩]
  | c :: rest, acc =>
    if c = '\n' then
      (match acc with
       | '\r' :: acc' => (⟨acc'.reverse⟩ : String)
       | _ => ⟨acc.reverse⟩) :: linesAux rest []
    else linesAux rest (c :: acc)

/-- Model of Rust `str::lines`: split on `'\n'`; a final empty segment (from a
trailing newline) yields no line; a `'\r'` immediately before a `'\n'` is
stripped. -/
def rustLines (s : String) : List String := linesAux s.data []

/-- The line scan of `parse_makefile_targets`: keep lines that do not start
with a tab, a space or `'#'`; on each, if it contains `':'`, the text before
the first `':'` trimmed is the target, accepted unless empty, dot-prefixed, or
containing `'='` or `'$'`. -/
def makefileScripts (content : String) : List ProjectScript :=
  ((rustLines content).filter fun line =>
      !(startsWithChar line '\t') && !(startsWithChar line ' ')
        && !(startsWithChar line '#')).filterMap
    fun line =>
      if strContains line ':' then
        let target := strTrim (strTakeWhile (fun c => c ≠ ':') line)
        if target ≠ "" ∧ ¬(startsWithChar target '.') ∧ ¬(strContains target '=')
            ∧ ¬(strContains target '$') then
          some { name := target, command := "make " ++ target }
        else none
      else none

/-- `parse_makefile_targets` from `src/scripts.rs`.  `upperMakefile` /
`lowerMakefile` model the contents of `Makefile` / `makefile` when the file
exists and is readable (`Makefile` is preferred).  Note the returned
`source_file` is the literal `"Makefile"` in both cases. -/
def parse_makefile_targets (upperMakefile lowerMakefile : Option String) : Option ScriptList :=
  match (match upperMakefile with | some c => some c | none => lowerMakefile) with
  | none => none
  | some content =>
    if (makefileScripts content).isEmpty then none
    else some { scripts := makefileScripts content, source_file := "Makefile" }

/-- `parse_cargo_targets` from `src/scripts.rs`: a fixed command set whenever
`Cargo.toml` exists. -/
def parse_cargo_targets (cargoTomlExists : Bool) : Option ScriptList :=
  if cargoTomlExists then
    some { scripts :=
            [⟨"build", "cargo build"⟩, ⟨"test", "cargo test"⟩, ⟨"run", "cargo run"⟩,
             ⟨"check", "cargo check"⟩, ⟨"clippy", "cargo clippy"⟩, ⟨"fmt", "cargo fmt"⟩,
             ⟨"doc", "cargo doc"⟩, ⟨"bench", "cargo bench"⟩],
           source_file := "Cargo.toml" }
  else none

/-- Parsed TOML values as produced by the `toml` crate; only the shape the
source inspects is distinguished (tables, strings, everything else opaque). -/
inductive Toml where
  | str (s : String)
  | table (fields : List (String × Toml))
  | other
deriving Repr

/-- `toml::Value::get` with a string key. -/
def Toml.get? : Toml → String → Option Toml
  | .table fields, key => fields.lookup key
  | _, _ => none

/-- `toml::Value::as_table`. -/
def Toml.asTable? : Toml → Option (List (String × Toml))
  | .table fields => some fields
  | _ => none

/-- `toml::Value::as_str`. -/
def Toml.asStr? : Toml → Option String
  | .str s => some s
  | _ => none

/-- The entries pushed for one scripts table (`tool.poetry.scripts` or
`project.scripts`). -/
def tomlTableScripts (v : Option Toml) : List ProjectScript :=
  match v.bind Toml.asTable? with
  | some tbl => tbl.map fun nc => { name := nc.1, command := (nc.2.asStr?).getD "" }
  | none => []

/-- `parse_pyproject_scripts` from `src/scripts.rs`: poetry entries first, then
PEP 621 `project.scripts` entries; `none` when the file is absent/unparsable or
no entry was found. -/
def parse_pyproject_scripts (pyprojectToml : Option (Option Toml)) : Option ScriptList :=
  match pyprojectToml with
  | none => none
  | some none => none
  | some (some toml_value) =>
    let poetryScripts := tomlTableScripts
      (((toml_value.get? "tool").bind fun t => t.get? "poetry").bind fun p => p.get? "scripts")
    let projectScripts := tomlTableScripts
      ((toml_value.get? "project").bind fun p => p.get? "scripts")
    if (poetryScripts ++ projectScripts).isEmpty then none
    else some { scripts := poetryScripts ++ projectScripts, source_file := "pyproject.toml" }

/-! ## `src/detectors/` -/

/-- Modelled from the spec: the closed `Ecosystem` tag set of §3
(`src/detectors/mod.rs`, which declares it, is not among the given sources). -/
inductive Ecosystem where
  | NodeJs
  | Rust
  | Python
  | Swift
  | Zig
  | Generic
deriving DecidableEq, Repr

/-- Modelled from the spec: `DetectedRunner` of §3 — `name`, `detected_file`,
`ecosystem`, `priority` (its declaring module `src/detectors/mod.rs` is not
among the given sources; the detector sources construct it via
`DetectedRunner::new(name, detected_file, ecosystem, priority)`). -/
structure DetectedRunner where
  name : String
  detected_file : String
  ecosystem : Ecosystem
  priority : Nat
deriving DecidableEq, Repr

/-- `DetectedRunner::new`. -/
def DetectedRunner.new (name detected_file : String) (ecosystem : Ecosystem)
    (priority : Nat) : DetectedRunner :=
  ⟨name, detected_file, ecosystem, priority⟩

/-- `detect` from `src/detectors/swift.rs`: one runner iff `Package.swift`
exists, priority 19. -/
def swift_detect (packageSwiftExists : Bool) : List DetectedRunner :=
  if packageSwiftExists then [DetectedRunner.new "swift" "Package.swift" .Swift 19] else []

/-- `detect` from `src/detectors/zig.rs`: one runner iff `build.zig` exists,
priority 20. -/
def zig_detect (buildZigExists : Bool) : List DetectedRunner :=
  if buildZigExists then [DetectedRunner.new "zig" "build.zig" .Zig 20] else []

/-- `detect` from `src/detectors/make.rs`: walk the directory entries in
order and report the first one named exactly `Makefile` or `makefile`
(then `break`), priority 21. -/
def make_detect (dirEntries : List String) : List DetectedRunner :=
  match dirEntries.find? fun n => n == "Makefile" || n == "makefile" with
  | some name => [DetectedRunner.new "make" name .Generic 21]
  | none => []

/-! ## Discovery dispatch and the script-name gate (`src/scripts.rs`, `src/main.rs`) -/

/-- The modelled contents of a project directory, as read by the discovery
strategies. -/
structure ProjectDir where
  packageJson : Option (Option Json)
  cargoTomlExists : Bool
  pyprojectToml : Option (Option Toml)
  upperMakefile : Option String
  lowerMakefile : Option String

/-- `get_scripts_for_runner` from `src/scripts.rs`: dispatch on the runner's
ecosystem; unsupported ecosystems yield `none`. -/
def get_scripts_for_runner (runner : DetectedRunner) (dir : ProjectDir) : Option ScriptList :=
  match runner.ecosystem with
  | .NodeJs => parse_package_json_scripts dir.packageJson
  | .Rust => parse_cargo_targets dir.cargoTomlExists
  | .Python => parse_pyproject_scripts dir.pyprojectToml
  | .Generic => parse_makefile_targets dir.upperMakefile dir.lowerMakefile
  | _ => none

/-- `discover_all_scripts` from `src/scripts.rs`: run all four strategies and
collect every successful result. -/
def discover_all_scripts (dir : ProjectDir) : List ScriptList :=
  [parse_package_json_scripts dir.packageJson,
   parse_cargo_targets dir.cargoTomlExists,
   parse_pyproject_scripts dir.pyprojectToml,
   parse_makefile_targets dir.upperMakefile dir.lowerMakefile].filterMap id

/-- Outcome of the pre-dispatch script-name gate of `main` (`src/main.rs`
lines 128–147): either the dispatch proceeds to `execute`, or it fails before
any subprocess with the discovered names and an optional fuzzy suggestion
(the data the error path displays). -/
inductive GateResult where
  | scriptNotFound (available : List String) (suggestion : Option String)
  | proceed
deriving DecidableEq, Repr

/-- The script-name gate of `main` (`src/main.rs` lines 128–147), the code run
between conflict resolution and `execute`: only for `Ecosystem::NodeJs`, and
only when discovery succeeds, a non-exact-match command aborts the dispatch. -/
def dispatch_gate (runner : DetectedRunner) (dir : ProjectDir) (command : String) : GateResult :=
  if runner.ecosystem = .NodeJs then
    match get_scripts_for_runner runner dir with
    | some script_list =>
      let script_names := script_list.scripts.map fun s => s.name
      if is_exact_match command script_names then .proceed
      else .scriptNotFound script_names (suggest_script command script_names)
    | none => .proceed
  else .proceed

/-! ## Spec-side definitions (for refinement comparisons) and concrete inputs -/

/-- Formalisation of the spec's Makefile-target sentence (§4.2 Generic),
written from the spec's words: a line is a candidate only if it does not
start with a tab or space and is not '#'-prefixed; within such a line the
text before the first ':' trimmed of whitespace is the candidate name;
candidates that are empty, start with '.', or contain '=' or '$' are
rejected; each accepted name becomes a script with command "make <name>". -/
def specMakefileTarget (line : String) : Option ProjectScript :=
  if startsWithChar line '\t' ∨ startsWithChar line ' ' ∨ startsWithChar line '#' then none
  else if strContains line ':' then
    let candidate := strTrim (strTakeWhile (fun c => c ≠ ':') line)
    if candidate = "" ∨ startsWithChar candidate '.' ∨ strContains candidate '='
        ∨ strContains candidate '$' then none
    else some { name := candidate, command := "make " ++ candidate }
  else none

/-- The Makefile of the spec's test vector: targets build, test, clean, a
.PHONY pseudo-target, and tab-indented recipe lines. -/
def exC1Makefile : String :=
  ".PHONY: all clean\n\nbuild:\n\tcargo build\n\ntest:\n\tcargo test\n\nclean:\n\trm -rf target\n"

/-- The package.json of the spec's test vector:
`{"scripts": {"dev":"vite","build":"vite build"}}`. -/
def exC2Json : Json :=
  .obj [("scripts", .obj [("dev", .str "vite"), ("build", .str "vite build")])]

/-- A package.json with an empty scripts object: `{"scripts": {}}`. -/
def exEmptyScriptsJson : Json := .obj [("scripts", .obj [])]

/-- A directory whose only config file is a package.json with an empty
scripts object. -/
def exC9Dir : ProjectDir :=
  { packageJson := some (some exEmptyScriptsJson), cargoTomlExists := false,
    pyprojectToml := none, upperMakefile := none, lowerMakefile := none }

/-- A directory whose only config file is the package.json of the spec's
test vector. -/
def exNodeDir : ProjectDir :=
  { packageJson := some (some exC2Json), cargoTomlExists := false,
    pyprojectToml := none, upperMakefile := none, lowerMakefile := none }

/-- The ScriptList discovered in `exNodeDir`. -/
def exNodeScriptList : ScriptList :=
  { scripts := [{ name := "dev", command := "vite" },
                { name := "build", command := "vite build" }],
    source_file := "package.json" }

/-! ## Edit operations: the specification of Levenshtein distance -/

/-- One single-character edit: insert, delete, or substitute (by a different
character) at an arbitrary position. -/
inductive EditStep : List Char → List Char → Prop where
  | insert (u v : List Char) (x : Char) : EditStep (u ++ v) (u ++ x :: v)
  | delete (u v : List Char) (x : Char) : EditStep (u ++ x :: v) (u ++ v)
  | subst (u v : List Char) (x y : Char) (h : x ≠ y) : EditStep (u ++ x :: v) (u ++ y :: v)

/-- `EditChain n a b`: `a` can be turned into `b` by `n` single-character
edits. -/
inductive EditChain : Nat → List Char → List Char → Prop where
  | refl (a : List Char) : EditChain 0 a a
  | step {n : Nat} {a c b : List Char} :
      EditStep a c → EditChain n c b → EditChain (n + 1) a b

/-! ## Theorems -/

/-! ### Edit distance: basic equations and bounds -/

theorem lev_nil (b : List Char) : lev [] b = b.length := rfl

theorem lev_cons_nil (x : Char) (as : List Char) : lev (x :: as) [] = as.length + 1 := rfl

theorem lev_cons_cons (x : Char) (as : List Char) (y : Char) (bs : List Char) :
    lev (x :: as) (y :: bs) =
      min (lev as (y :: bs) + 1) (min (lev (x :: as) bs + 1) (lev as bs + editCost x y)) := rfl

theorem levD_zero (a b : List Char) (j : Nat) : levD a b 0 j = j := rfl

theorem levD_succ_zero (a b : List Char) (i : Nat) : levD a b (i + 1) 0 = i + 1 := rfl

theorem levD_succ_succ (a b : List Char) (i j : Nat) :
    levD a b (i + 1) (j + 1) =
      min (min (levD a b i (j + 1) + 1) (levD a b (i + 1) j + 1))
        (levD a b i j + editCost (a.getD i default) (b.getD j default)) := rfl

theorem lev_nil_right (s : List Char) : lev s [] = s.length := by
  cases s <;> rfl

theorem editCost_self (x : Char) : editCost x x = 0 := by simp [editCost]

theorem editCost_le_one (x y : Char) : editCost x y ≤ 1 := by
  unfold editCost; split <;> omega

theorem editCost_comm (x y : Char) : editCost x y = editCost y x := by
  unfold editCost
  by_cases h : x = y
  · simp [h]
  · rw [if_neg h, if_neg fun hc => h hc.symm]

theorem lev_self (l : List Char) : lev l l = 0 := by
  induction l with
  | nil => rfl
  | cons x as ih =>
    rw [lev_cons_cons]
    have hc := editCost_self x
    omega

theorem lev_comm (a : List Char) : ∀ b : List Char, lev a b = lev b a := by
  induction a with
  | nil => intro b; rw [lev_nil, lev_nil_right]
  | cons x as iha =>
    intro b
    induction b with
    | nil => rw [lev_nil, lev_cons_nil]; rfl
    | cons y bs ihb =>
      rw [lev_cons_cons, lev_cons_cons]
      have h1 := iha (y :: bs)
      have h3 := iha bs
      have hc := editCost_comm x y
      omega

theorem lev_le_max (a : List Char) : ∀ b : List Char, lev a b ≤ max a.length b.length := by
  induction a with
  | nil => intro b; rw [lev_nil]; omega
  | cons x as iha =>
    intro b
    cases b with
    | nil => rw [lev_cons_nil]; simp
    | cons y bs =>
      rw [lev_cons_cons]
      have h3 := iha bs
      have hc := editCost_le_one x y
      simp only [List.length_cons]
      omega

theorem lev_cons_right_le (s : List Char) (y : Char) (bs : List Char) :
    lev s (y :: bs) ≤ lev s bs + 1 := by
  cases s with
  | nil => rw [lev_nil, lev_nil]; simp
  | cons x as => rw [lev_cons_cons]; omega

theorem lev_cons_left_le (x : Char) (as t : List Char) :
    lev (x :: as) t ≤ lev as t + 1 := by
  cases t with
  | nil => rw [lev_cons_nil, lev_nil_right]
  | cons y bs => rw [lev_cons_cons]; omega

theorem lev_le_cons_left (x : Char) (v : List Char) : ∀ t : List Char,
    lev v t ≤ lev (x :: v) t + 1 := by
  intro t
  induction t with
  | nil => rw [lev_nil_right, lev_cons_nil]; omega
  | cons y bs ih =>
    rw [lev_cons_cons]
    have hb1 := lev_cons_right_le v y bs
    have hc : 0 ≤ editCost x y := Nat.zero_le _
    omega

theorem lev_subst_head_le (x y : Char) (v : List Char) : ∀ t : List Char,
    lev (x :: v) t ≤ lev (y :: v) t + 1 := by
  intro t
  induction t with
  | nil => rw [lev_cons_nil, lev_cons_nil]; omega
  | cons z ts ih =>
    rw [lev_cons_cons, lev_cons_cons]
    have hcx := editCost_le_one x z
    have hcy : 0 ≤ editCost y z := Nat.zero_le _
    omega

theorem lev_cons_mono (w : Char) {s₁ s₂ : List Char}
    (h : ∀ t, lev s₁ t ≤ lev s₂ t + 1) : ∀ t, lev (w :: s₁) t ≤ lev (w :: s₂) t + 1 := by
  intro t
  induction t with
  | nil =>
    have h0 := h []
    rw [lev_nil_right, lev_nil_right] at h0
    rw [lev_cons_nil, lev_cons_nil]
    omega
  | cons z ts ih =>
    rw [lev_cons_cons, lev_cons_cons]
    have h1 := h (z :: ts)
    have h2 := h ts
    omega

/-! ### Edit distance: one edit changes the distance by at most one -/

theorem lev_delete_le (u : List Char) (v : List Char) (x : Char) :
    ∀ t, lev (u ++ x :: v) t ≤ lev (u ++ v) t + 1 := by
  induction u with
  | nil => intro t; simpa using lev_cons_left_le x v t
  | cons w u ih => intro t; simpa using lev_cons_mono w ih t

theorem lev_insert_le (u : List Char) (v : List Char) (x : Char) :
    ∀ t, lev (u ++ v) t ≤ lev (u ++ x :: v) t + 1 := by
  induction u with
  | nil => intro t; simpa using lev_le_cons_left x v t
  | cons w u ih => intro t; simpa using lev_cons_mono w ih t

theorem lev_subst_le (u : List Char) (v : List Char) (x y : Char) :
    ∀ t, lev (u ++ x :: v) t ≤ lev (u ++ y :: v) t + 1 := by
  induction u with
  | nil => intro t; simpa using lev_subst_head_le x y v t
  | cons w u ih => intro t; simpa using lev_cons_mono w ih t

theorem editStep_lev_le {a c : List Char} (h : EditStep a c) (b : List Char) :
    lev a b ≤ lev c b + 1 := by
  cases h with
  | insert u v x => exact lev_insert_le u v x b
  | delete u v x => exact lev_delete_le u v x b
  | subst u v x y hxy => exact lev_subst_le u v x y b

/-! ### Edit distance: achievability and minimality -/

theorem editChain_lev_le {n : Nat} {a b : List Char} (h : EditChain n a b) :
    lev a b ≤ n := by
  induction h with
  | refl a => rw [lev_self]
  | step hs hc ih =>
    next b2 =>
      have := editStep_lev_le hs b2
      omega

theorem editChain_snoc {n : Nat} {a c b : List Char}
    (h : EditChain n a c) (hs : EditStep c b) : EditChain (n + 1) a b := by
  induction h with
  | refl a => exact EditChain.step hs (EditChain.refl b)
  | step hs0 _ ih => exact EditChain.step hs0 (ih hs)

theorem editStep_cons {a b : List Char} (x : Char) (h : EditStep a b) :
    EditStep (x :: a) (x :: b) := by
  cases h with
  | insert u v c => simpa using EditStep.insert (x :: u) v c
  | delete u v c => simpa using EditStep.delete (x :: u) v c
  | subst u v c d hcd => simpa using EditStep.subst (x :: u) v c d hcd

theorem editChain_cons {n : Nat} {a b : List Char} (x : Char)
    (h : EditChain n a b) : EditChain n (x :: a) (x :: b) := by
  induction h with
  | refl a => exact EditChain.refl _
  | step hs _ ih => exact EditChain.step (editStep_cons x hs) ih

theorem editChain_of_nil (b : List Char) : EditChain b.length [] b := by
  induction b with
  | nil => exact EditChain.refl []
  | cons y bs ih => exact editChain_snoc ih (by simpa using EditStep.insert [] bs y)

theorem editChain_to_nil (a : List Char) : EditChain a.length a [] := by
  induction a with
  | nil => exact EditChain.refl []
  | cons x as ih => exact EditChain.step (by simpa using EditStep.delete [] as x) ih

theorem editChain_lev (a : List Char) : ∀ b : List Char, EditChain (lev a b) a b := by
  induction a with
  | nil => intro b; rw [lev_nil]; exact editChain_of_nil b
  | cons x as iha =>
    intro b
    induction b with
    | nil => rw [lev_cons_nil]; exact editChain_to_nil (x :: as)
    | cons y bs ihb =>
      rw [lev_cons_cons]
      have hd : min (lev as (y :: bs) + 1)
            (min (lev (x :: as) bs + 1) (lev as bs + editCost x y)) = lev as (y :: bs) + 1
          ∨ min (lev as (y :: bs) + 1)
            (min (lev (x :: as) bs + 1) (lev as bs + editCost x y)) = lev (x :: as) bs + 1
          ∨ min (lev as (y :: bs) + 1)
            (min (lev (x :: as) bs + 1) (lev as bs + editCost x y)) =
              lev as bs + editCost x y := by omega
      rcases hd with h | h | h <;> rw [h]
      · exact EditChain.step (by simpa using EditStep.delete [] as x) (iha (y :: bs))
      · exact editChain_snoc ihb (by simpa using EditStep.insert [] bs y)
      · by_cases hxy : x = y
        · subst hxy
          rw [editCost_self]
          exact editChain_cons x (iha bs)
        · rw [show editCost x y = 1 by simp [editCost, hxy]]
          exact EditChain.step (by simpa using EditStep.subst [] as x y hxy)
            (editChain_cons y (iha bs))

/-! ### Edit distance: reversal invariance and the DP-matrix bridge -/

theorem editStep_reverse {a b : List Char} (h : EditStep a b) :
    EditStep a.reverse b.reverse := by
  cases h with
  | insert u v x => simpa [List.reverse_append] using EditStep.insert v.reverse u.reverse x
  | delete u v x => simpa [List.reverse_append] using EditStep.delete v.reverse u.reverse x
  | subst u v x y hxy =>
    simpa [List.reverse_append] using EditStep.subst v.reverse u.reverse x y hxy

theorem editChain_reverse {n : Nat} {a b : List Char} (h : EditChain n a b) :
    EditChain n a.reverse b.reverse := by
  induction h with
  | refl a => exact EditChain.refl _
  | step hs _ ih => exact EditChain.step (editStep_reverse hs) ih

theorem lev_reverse (a b : List Char) : lev a.reverse b.reverse = lev a b := by
  apply le_antisymm
  · exact editChain_lev_le (editChain_reverse (editChain_lev a b))
  · have h := editChain_reverse (editChain_lev a.reverse b.reverse)
    simp only [List.reverse_reverse] at h
    exact editChain_lev_le h

theorem levD_eq (a b : List Char) : ∀ i, i ≤ a.length → ∀ j, j ≤ b.length →
    levD a b i j = lev ((a.take i).reverse) ((b.take j).reverse) := by
  intro i
  induction i with
  | zero =>
    intro _ j hj
    rw [levD_zero, List.take_zero, List.reverse_nil, lev_nil, List.length_reverse,
      List.length_take]
    omega
  | succ i ihi =>
    intro hi j
    have hia : i < a.length := hi
    have ha1 : (a.take (i + 1)).reverse = a.getD i default :: (a.take i).reverse := by
      rw [List.take_succ, List.getElem?_eq_getElem hia, List.getD_eq_getElem a default hia]
      simp
    induction j with
    | zero =>
      intro _
      rw [levD_succ_zero, List.take_zero, List.reverse_nil, lev_nil_right, ha1,
        List.length_cons, List.length_reverse, List.length_take]
      omega
    | succ j ihj =>
      intro hj
      have hjb : j < b.length := hj
      have hb1 : (b.take (j + 1)).reverse = b.getD j default :: (b.take j).reverse := by
        rw [List.take_succ, List.getElem?_eq_getElem hjb, List.getD_eq_getElem b default hjb]
        simp
      rw [levD_succ_succ, ihi (by omega) (j + 1) hj, ihi (by omega) j (by omega),
        ihj (by omega), ha1, hb1, lev_cons_cons]
      rw [← ha1]
      omega

theorem levenshtein_distance_eq_lev (a b : String) :
    levenshtein_distance a b = lev a.data b.data := by
  unfold levenshtein_distance
  by_cases ha : a.data.length = 0
  · rw [if_pos ha, List.length_eq_zero.mp ha, lev_nil]
  · rw [if_neg ha]
    by_cases hb : b.data.length = 0
    · rw [if_pos hb, List.length_eq_zero.mp hb, lev_nil_right]
    · rw [if_neg hb, levD_eq a.data b.data _ le_rfl _ le_rfl, List.take_length,
        List.take_length, lev_reverse]

theorem parse_package_json_some {f : Option (Option Json)} {sl : ScriptList}
    (h : parse_package_json_scripts f = some sl) : sl.source_file = "package.json" := by
  match f with
  | none => simp [parse_package_json_scripts] at h
  | some none => simp [parse_package_json_scripts] at h
  | some (some j) =>
    simp only [parse_package_json_scripts] at h
    split at h
    · exact absurd h (by simp)
    · injection h with h; rw [← h]

theorem parse_cargo_some {b : Bool} {sl : ScriptList}
    (h : parse_cargo_targets b = some sl) :
    sl.source_file = "Cargo.toml" ∧ sl.scripts ≠ [] := by
  cases b <;> simp [parse_cargo_targets] at h
  simp [← h]

theorem parse_pyproject_some {t : Option (Option Toml)} {sl : ScriptList}
    (h : parse_pyproject_scripts t = some sl) :
    sl.source_file = "pyproject.toml" ∧ sl.scripts ≠ [] := by
  match t with
  | none => simp [parse_pyproject_scripts] at h
  | some none => simp [parse_pyproject_scripts] at h
  | some (some v) =>
    simp only [parse_pyproject_scripts] at h
    split at h
    · exact absurd h (by simp)
    · next hne =>
      injection h with h
      rw [← h]
      exact ⟨rfl, by simpa [List.isEmpty_iff] using hne⟩

theorem parse_makefile_some {u l : Option String} {sl : ScriptList}
    (h : parse_makefile_targets u l = some sl) :
    sl.source_file = "Makefile" ∧ sl.scripts ≠ [] := by
  unfold parse_makefile_targets at h
  have hcontent : ∀ content : String,
      (if (makefileScripts content).isEmpty then none
        else some { scripts := makefileScripts content,
                    source_file := "Makefile" } : Option ScriptList) = some sl →
      sl.source_file = "Makefile" ∧ sl.scripts ≠ [] := by
    intro content hc
    split at hc
    · exact absurd hc (by simp)
    · next hne =>
      injection hc with hc
      rw [← hc]
      exact ⟨rfl, by simpa [List.isEmpty_iff] using hne⟩
  rcases u with _ | c
  · rcases l with _ | c
    · simp at h
    · exact hcontent c h
  · exact hcontent c h

theorem makefileScripts_eq_spec (content : String) :
    makefileScripts content = (rustLines content).filterMap specMakefileTarget := by
  unfold makefileScripts
  rw [List.filterMap_filter]
  refine List.filterMap_congr fun line _ => ?_
  unfold specMakefileTarget
  cases hT : startsWithChar line '\t' <;> cases hS : startsWithChar line ' ' <;>
    cases hH : startsWithChar line '#' <;>
    simp only [hT, hS, hH, Bool.not_true, Bool.not_false, Bool.false_and, Bool.and_false,
      Bool.true_and, Bool.and_true, Bool.false_eq_true, Bool.true_eq_false, or_true, true_or,
      or_false, false_or, ite_true, ite_false, if_true, if_false]
  cases hc : strContains line ':' <;>
    simp only [hc, Bool.false_eq_true, Bool.true_eq_false, ite_true, ite_false, if_true, if_false]
  split_ifs with ha hb <;> first | rfl | tauto

/-- C1: the Makefile scan considers only lines not starting with a tab, a
space or '#' that contain ':'; the candidate name is the text before the
first ':' trimmed of whitespace; a candidate is accepted iff it is non-empty,
does not start with '.', and contains neither '=' nor '$'; each accepted name
yields a script with command "make <name>" (part 1, an exact correspondence
with the spec-side extraction rule); on the example Makefile exactly
build, test, clean are returned (part 2); and the result is none when no
candidate qualifies (part 3). -/
theorem C1_parse_makefile_targets :
    (∀ content : String,
        makefileScripts content = (rustLines content).filterMap specMakefileTarget)
    ∧ (parse_makefile_targets (some exC1Makefile) none).map
        (fun sl => sl.scripts.map fun s => s.name) = some ["build", "test", "clean"]
    ∧ (∀ content other, makefileScripts content = [] →
        parse_makefile_targets (some content) other = none
          ∧ parse_makefile_targets none (some content) = none) := by
  refine ⟨makefileScripts_eq_spec, by decide, ?_⟩
  intro content other h
  constructor <;> simp [parse_makefile_targets, h]

theorem C1_parse_makefile_targets_witness :
    makefileScripts "# just a comment\n" = []
      ∧ parse_makefile_targets (some "# just a comment\n") none = none :=
  ⟨by decide, (C1_parse_makefile_targets.2.2 "# just a comment\n" none (by decide)).1⟩

/-- C2: Node.js discovery returns none iff package.json is missing, is not
valid JSON, or has no top-level scripts object (part 1); an empty scripts
object yields a present-but-empty ScriptList (part 2); and the spec's
two-script example yields exactly 2 entries with source_file "package.json"
(part 3). -/
theorem C2_parse_package_json_scripts :
    (∀ file : Option (Option Json),
        parse_package_json_scripts file = none ↔
          file = none ∨ file = some none ∨
            ∃ j, file = some (some j) ∧ (j.get? "scripts").bind Json.asObject? = none)
    ∧ (∀ j : Json, (j.get? "scripts").bind Json.asObject? = some [] →
        parse_package_json_scripts (some (some j)) =
          some { scripts := [], source_file := "package.json" })
    ∧ (parse_package_json_scripts (some (some exC2Json))).map
        (fun sl => (sl.scripts.length, sl.source_file)) = some (2, "package.json") := by
  refine ⟨?_, ?_, by decide⟩
  · intro file
    match file with
    | none => simp [parse_package_json_scripts]
    | some none => simp [parse_package_json_scripts]
    | some (some j) =>
      cases h : (j.get? "scripts").bind Json.asObject? with
      | none =>
        constructor
        · intro _
          exact Or.inr (Or.inr ⟨j, rfl, h⟩)
        · intro _
          simp [parse_package_json_scripts, h]
      | some tbl =>
        constructor
        · intro hc
          simp only [parse_package_json_scripts, h] at hc
          exact absurd hc (by simp)
        · rintro (hcontra | hcontra | ⟨j2, hj2, hnone⟩)
          · exact absurd hcontra (by simp)
          · exact absurd hcontra (by simp)
          · obtain rfl : j = j2 := by injection hj2 with hj2; injection hj2
            rw [h] at hnone
            exact absurd hnone (by simp)
  · intro j h
    simp [parse_package_json_scripts, h]

theorem C2_parse_package_json_scripts_witness :
    parse_package_json_scripts (some (some exEmptyScriptsJson)) =
      some { scripts := [], source_file := "package.json" } :=
  C2_parse_package_json_scripts.2.1 exEmptyScriptsJson rfl

/-- C3: the pre-dispatch gate applies only to Node.js runners: when discovery
succeeds and the command is not a case-insensitive exact member of the
discovered names, the dispatch fails with the full name list and a fuzzy
suggestion, before any subprocess (part 1); when the command is an exact
member it proceeds (part 2); for every runner of any other ecosystem the
gate never fires (part 3); and is_exact_match is exactly case-insensitive
membership (part 4). -/
theorem C3_dispatch_gate_nodejs_only :
    (∀ (runner : DetectedRunner) (dir : ProjectDir) (command : String)
        (script_list : ScriptList),
        runner.ecosystem = .NodeJs →
        get_scripts_for_runner runner dir = some script_list →
        is_exact_match command (script_list.scripts.map fun s => s.name) = false →
        dispatch_gate runner dir command =
          .scriptNotFound (script_list.scripts.map fun s => s.name)
            (suggest_script command (script_list.scripts.map fun s => s.name)))
    ∧ (∀ (runner : DetectedRunner) (dir : ProjectDir) (command : String)
        (script_list : ScriptList),
        runner.ecosystem = .NodeJs →
        get_scripts_for_runner runner dir = some script_list →
        is_exact_match command (script_list.scripts.map fun s => s.name) = true →
        dispatch_gate runner dir command = .proceed)
    ∧ (∀ (runner : DetectedRunner) (dir : ProjectDir) (command : String),
        runner.ecosystem ≠ .NodeJs → dispatch_gate runner dir command = .proceed)
    ∧ (∀ (command : String) (names : List String),
        is_exact_match command names = true ↔
          ∃ s ∈ names, lowercase s = lowercase command) := by
  refine ⟨?_, ?_, ?_, ?_⟩
  · intro runner dir command script_list he hs hm
    simp [dispatch_gate, he, hs, hm]
  · intro runner dir command script_list he hs hm
    simp [dispatch_gate, he, hs, hm]
  · intro runner dir command hne
    simp [dispatch_gate, hne]
  · intro command names
    simp [is_exact_match, List.any_eq_true]

theorem C3_dispatch_gate_nodejs_only_witness :
    dispatch_gate (DetectedRunner.new "npm" "package.json" .NodeJs 1) exNodeDir "xyz" =
        .scriptNotFound (exNodeScriptList.scripts.map fun s => s.name)
          (suggest_script "xyz" (exNodeScriptList.scripts.map fun s => s.name))
      ∧ dispatch_gate (DetectedRunner.new "npm" "package.json" .NodeJs 1) exNodeDir "DEV" =
          .proceed
      ∧ dispatch_gate (DetectedRunner.new "cargo" "Cargo.toml" .Rust 5) exNodeDir "xyz" =
          .proceed :=
  ⟨C3_dispatch_gate_nodejs_only.1 _ exNodeDir "xyz" exNodeScriptList rfl (by decide) (by decide),
   C3_dispatch_gate_nodejs_only.2.1 _ exNodeDir "DEV" exNodeScriptList rfl (by decide) (by decide),
   C3_dispatch_gate_nodejs_only.2.2.1 _ exNodeDir "xyz" (by decide)⟩

/-- C8: the registered detectors carry the fixed pairwise-distinct priorities
swift = 19, zig = 20, make = 21 on every call (parts 1–3, with distinctness
parts 4–6); each returns at most one DetectedRunner (parts 7–9); and the
Makefile detector reports exactly the first directory entry named `Makefile`
or `makefile` (case-sensitive), never both (parts 10–11). -/
theorem C8_detector_priorities :
    (∀ b r, r ∈ swift_detect b → r.priority = 19)
    ∧ (∀ b r, r ∈ zig_detect b → r.priority = 20)
    ∧ (∀ es r, r ∈ make_detect es → r.priority = 21)
    ∧ (∀ b1 b2 r1 r2, r1 ∈ swift_detect b1 → r2 ∈ zig_detect b2 → r1.priority ≠ r2.priority)
    ∧ (∀ b1 es r1 r2, r1 ∈ swift_detect b1 → r2 ∈ make_detect es → r1.priority ≠ r2.priority)
    ∧ (∀ b1 es r1 r2, r1 ∈ zig_detect b1 → r2 ∈ make_detect es → r1.priority ≠ r2.priority)
    ∧ (∀ b, (swift_detect b).length ≤ 1)
    ∧ (∀ b, (zig_detect b).length ≤ 1)
    ∧ (∀ es, (make_detect es).length ≤ 1)
    ∧ (∀ es name, (es.find? fun n => n == "Makefile" || n == "makefile") = some name →
        make_detect es = [DetectedRunner.new "make" name .Generic 21])
    ∧ (∀ es, (es.find? fun n => n == "Makefile" || n == "makefile") = none →
        make_detect es = []) := by
  have hswift : ∀ b r, r ∈ swift_detect b → r.priority = 19 := by
    intro b r hr
    cases b <;> simp [swift_detect] at hr <;> simp [hr, DetectedRunner.new]
  have hzig : ∀ b r, r ∈ zig_detect b → r.priority = 20 := by
    intro b r hr
    cases b <;> simp [zig_detect] at hr <;> simp [hr, DetectedRunner.new]
  have hmake : ∀ es r, r ∈ make_detect es → r.priority = 21 := by
    intro es r hr
    unfold make_detect at hr
    cases hf : es.find? fun n => n == "Makefile" || n == "makefile" <;> rw [hf] at hr <;>
      simp at hr
    simp [hr, DetectedRunner.new]
  refine ⟨hswift, hzig, hmake, ?_, ?_, ?_, ?_, ?_, ?_, ?_, ?_⟩
  · intro b1 b2 r1 r2 h1 h2
    rw [hswift b1 r1 h1, hzig b2 r2 h2]; omega
  · intro b1 es r1 r2 h1 h2
    rw [hswift b1 r1 h1, hmake es r2 h2]; omega
  · intro b1 es r1 r2 h1 h2
    rw [hzig b1 r1 h1, hmake es r2 h2]; omega
  · intro b; cases b <;> simp [swift_detect]
  · intro b; cases b <;> simp [zig_detect]
  · intro es
    unfold make_detect
    cases hf : es.find? fun n => n == "Makefile" || n == "makefile" <;> simp
  · intro es name hf; simp [make_detect, hf]
  · intro es hf; simp [make_detect, hf]

theorem C8_detector_priorities_witness :
    swift_detect true = [DetectedRunner.new "swift" "Package.swift" .Swift 19]
      ∧ (DetectedRunner.new "swift" "Package.swift" Ecosystem.Swift 19).priority = 19
      ∧ make_detect ["foo", "makefile", "Makefile"] =
          [DetectedRunner.new "make" "makefile" .Generic 21] :=
  ⟨by decide,
   C8_detector_priorities.1 true (DetectedRunner.new "swift" "Package.swift" .Swift 19)
     (by decide),
   C8_detector_priorities.2.2.2.2.2.2.2.2.2.1 ["foo", "makefile", "Makefile"] "makefile"
     (by decide)⟩

/-- C9 counterexample: a directory whose package.json has an empty scripts
object makes discover_all_scripts return a ScriptList with zero entries, so
the result is not restricted to non-empty ScriptLists. -/
theorem C9_discover_all_counterexample :
    ∃ sl ∈ discover_all_scripts exC9Dir, sl.scripts = [] := by
  refine ⟨{ scripts := [], source_file := "package.json" }, ?_, rfl⟩
  have h : discover_all_scripts exC9Dir = [{ scripts := [], source_file := "package.json" }] :=
    by decide
  rw [h]; exact List.mem_singleton.mpr rfl

/-- C9 amended: discover_all_scripts runs all four discovery strategies
unconditionally and returns every successful ScriptList (parts 1–5); the
Cargo, Python and Makefile strategies never contribute an empty ScriptList,
so any empty ScriptList in the result comes from the Node.js strategy
(part 6). -/
theorem C9_discover_all_amended :
    (∀ dir sl, parse_package_json_scripts dir.packageJson = some sl →
        sl ∈ discover_all_scripts dir)
    ∧ (∀ dir sl, parse_cargo_targets dir.cargoTomlExists = some sl →
        sl ∈ discover_all_scripts dir)
    ∧ (∀ dir sl, parse_pyproject_scripts dir.pyprojectToml = some sl →
        sl ∈ discover_all_scripts dir)
    ∧ (∀ dir sl, parse_makefile_targets dir.upperMakefile dir.lowerMakefile = some sl →
        sl ∈ discover_all_scripts dir)
    ∧ (∀ dir sl, sl ∈ discover_all_scripts dir →
        parse_package_json_scripts dir.packageJson = some sl
          ∨ parse_cargo_targets dir.cargoTomlExists = some sl
          ∨ parse_pyproject_scripts dir.pyprojectToml = some sl
          ∨ parse_makefile_targets dir.upperMakefile dir.lowerMakefile = some sl)
    ∧ (∀ dir sl, sl ∈ discover_all_scripts dir → sl.scripts = [] →
        parse_package_json_scripts dir.packageJson = some sl
          ∧ sl.source_file = "package.json") := by
  have hmem : ∀ dir sl, sl ∈ discover_all_scripts dir ↔
      parse_package_json_scripts dir.packageJson = some sl
        ∨ parse_cargo_targets dir.cargoTomlExists = some sl
        ∨ parse_pyproject_scripts dir.pyprojectToml = some sl
        ∨ parse_makefile_targets dir.upperMakefile dir.lowerMakefile = some sl := by
    intro dir sl
    simp [discover_all_scripts, List.mem_filterMap, eq_comm]
  refine ⟨?_, ?_, ?_, ?_, ?_, ?_⟩
  · intro dir sl h; exact (hmem dir sl).mpr (Or.inl h)
  · intro dir sl h; exact (hmem dir sl).mpr (Or.inr (Or.inl h))
  · intro dir sl h; exact (hmem dir sl).mpr (Or.inr (Or.inr (Or.inl h)))
  · intro dir sl h; exact (hmem dir sl).mpr (Or.inr (Or.inr (Or.inr h)))
  · intro dir sl h; exact (hmem dir sl).mp h
  · intro dir sl h hempty
    rcases (hmem dir sl).mp h with hp | hp | hp | hp
    · exact ⟨hp, parse_package_json_some hp⟩
    · exact absurd hempty (parse_cargo_some hp).2
    · exact absurd hempty (parse_pyproject_some hp).2
    · exact absurd hempty (parse_makefile_some hp).2

theorem C9_discover_all_amended_witness :
    { scripts := ([] : List ProjectScript), source_file := "package.json" } ∈
      discover_all_scripts exC9Dir :=
  C9_discover_all_amended.1 exC9Dir { scripts := [], source_file := "package.json" } (by decide)

/-- C10 counterexample: when Makefile discovery reads the lowercase file
`makefile` (uppercase `Makefile` absent), the returned source_file is still
the literal "Makefile", not "makefile" as the claim states. -/
theorem C10_source_file_counterexample :
    (parse_makefile_targets none (some "build:\n\tgcc\n")).map (fun sl => sl.source_file) =
        some "Makefile"
      ∧ "Makefile" ≠ "makefile" := by
  exact ⟨by decide, by decide⟩

/-- C10 amended: each discovery strategy labels its ScriptList with a fixed
source_file name — "package.json", "Cargo.toml", "pyproject.toml" — and
Makefile discovery always reports "Makefile", even when the scripts were
actually read from the lowercase file `makefile`. -/
theorem C10_source_file_amended :
    (∀ f sl, parse_package_json_scripts f = some sl → sl.source_file = "package.json")
    ∧ (∀ b sl, parse_cargo_targets b = some sl → sl.source_file = "Cargo.toml")
    ∧ (∀ t sl, parse_pyproject_scripts t = some sl → sl.source_file = "pyproject.toml")
    ∧ (∀ u l sl, parse_makefile_targets u l = some sl → sl.source_file = "Makefile") := by
  exact ⟨fun _ _ h => parse_package_json_some h, fun _ _ h => (parse_cargo_some h).1,
    fun _ _ h => (parse_pyproject_some h).1, fun _ _ _ h => (parse_makefile_some h).1⟩

theorem length_le_utf8ByteSize (s : String) : s.data.length ≤ s.utf8ByteSize := by
  obtain ⟨l⟩ := s
  rw [String.utf8ByteSize_mk]
  show l.length ≤ String.utf8Len l
  induction l with
  | nil => simp
  | cons c cs ih =>
    rw [String.utf8Len_cons, List.length_cons]
    have := Char.utf8Size_pos c
    omega

theorem levenshtein_le_max_utf8 (a b : String) :
    levenshtein_distance a b ≤ max a.utf8ByteSize b.utf8ByteSize := by
  rw [levenshtein_distance_eq_lev]
  have h1 := lev_le_max a.data b.data
  have h2 := length_le_utf8ByteSize a
  have h3 := length_le_utf8ByteSize b
  omega

theorem similarity_eval {a b : String} {d m : Nat} (hd : levenshtein_distance a b = d)
    (hm : max a.utf8ByteSize b.utf8ByteSize = m) (hm0 : m ≠ 0) :
    similarity_score a b = 1 - (d : ℚ) / (m : ℚ) := by
  simp only [similarity_score]
  rw [hd, hm, if_neg hm0]

/-- C4 counterexample: for a = "é" (one code point, two UTF-8 bytes) and
b = "", the code computes 1 - 1/2 = 1/2 because the source divides by the
maximum of the byte lengths, while the claim's code-point formula demands
1 - 1/1 = 0. -/
theorem C4_similarity_score_counterexample :
    similarity_score "é" "" ≠
      1 - (levenshtein_distance "é" "" : ℚ) /
        ((max "é".data.length "".data.length : Nat) : ℚ) := by
  rw [similarity_eval (show levenshtein_distance "é" "" = 1 by decide)
      (show max "é".utf8ByteSize "".utf8ByteSize = 2 by decide) (by norm_num),
    show levenshtein_distance "é" "" = 1 from by decide,
    show (max "é".data.length "".data.length : Nat) = 1 from by decide]
  norm_num

/-- C4 amended: similarity_score a b equals
1 - distance(a,b) / max(len(a), len(b)) where len is the UTF-8 **byte**
length, not the number of code points (part 1, for non-degenerate lengths);
the result always lies in [0,1] (parts 2–3); similarity(a,a) = 1 (part 4)
and similarity("","") = 1 (part 5).  Scores are modelled exactly in ℚ. -/
theorem C4_similarity_score_amended :
    ∀ a b : String,
      (max a.utf8ByteSize b.utf8ByteSize ≠ 0 →
        similarity_score a b =
          1 - (levenshtein_distance a b : ℚ) /
            ((max a.utf8ByteSize b.utf8ByteSize : Nat) : ℚ))
      ∧ 0 ≤ similarity_score a b
      ∧ similarity_score a b ≤ 1
      ∧ similarity_score a a = 1
      ∧ similarity_score "" "" = 1 := by
  intro a b
  refine ⟨?_, ?_, ?_, ?_, by decide⟩
  · intro hm
    simp only [similarity_score]
    rw [if_neg hm]
  · simp only [similarity_score]
    split_ifs with hm
    · norm_num
    · have hd := levenshtein_le_max_utf8 a b
      have hmpos : 0 < ((max a.utf8ByteSize b.utf8ByteSize : Nat) : ℚ) := by
        exact_mod_cast show 0 < max a.utf8ByteSize b.utf8ByteSize by omega
      have hq : (levenshtein_distance a b : ℚ) /
          ((max a.utf8ByteSize b.utf8ByteSize : Nat) : ℚ) ≤ 1 := by
        rw [div_le_one hmpos]
        exact_mod_cast hd
      linarith
  · simp only [similarity_score]
    split_ifs with hm
    · norm_num
    · have hq : 0 ≤ (levenshtein_distance a b : ℚ) /
          ((max a.utf8ByteSize b.utf8ByteSize : Nat) : ℚ) := by positivity
      linarith
  · simp only [similarity_score]
    split_ifs with hm
    · rfl
    · rw [levenshtein_distance_eq_lev, lev_self]
      norm_num

theorem C4_similarity_score_amended_witness :
    max "ab".utf8ByteSize "".utf8ByteSize ≠ 0
      ∧ similarity_score "ab" "" =
          1 - (levenshtein_distance "ab" "" : ℚ) /
            ((max "ab".utf8ByteSize "".utf8ByteSize : Nat) : ℚ) :=
  ⟨by decide, (C4_similarity_score_amended "ab" "").1 (by decide)⟩

/-! ### Ranking: stability of the descending sort -/

instance : IsTotal (String × ℚ) scoreGE := ⟨fun p q => le_total q.2 p.2⟩

instance : IsTrans (String × ℚ) scoreGE := ⟨fun _ _ _ h1 h2 => le_trans h2 h1⟩

theorem filter_orderedInsert_of_ne (p : String × ℚ) (c : ℚ) (hp : ¬p.2 = c)
    (m : List (String × ℚ)) :
    (m.orderedInsert scoreGE p).filter (fun q => decide (q.2 = c)) =
      m.filter (fun q => decide (q.2 = c)) := by
  induction m with
  | nil => simp [hp]
  | cons b m ih =>
    rw [List.orderedInsert]
    split_ifs with h
    · simp [hp]
    · rw [List.filter_cons, List.filter_cons, ih]

theorem filter_orderedInsert_of_eq (p : String × ℚ) (c : ℚ) (hp : p.2 = c)
    (m : List (String × ℚ)) :
    (m.orderedInsert scoreGE p).filter (fun q => decide (q.2 = c)) =
      p :: m.filter (fun q => decide (q.2 = c)) := by
  induction m with
  | nil => simp [hp]
  | cons b m ih =>
    rw [List.orderedInsert]
    split_ifs with h
    · rw [List.filter_cons]
      simp [hp]
    · have hb : ¬b.2 = c := fun hbc => h (le_of_eq (hbc.trans hp.symm))
      rw [List.filter_cons, ih, List.filter_cons]
      simp [hb]

theorem filter_insertionSort (c : ℚ) (l : List (String × ℚ)) :
    (l.insertionSort scoreGE).filter (fun q => decide (q.2 = c)) =
      l.filter (fun q => decide (q.2 = c)) := by
  induction l with
  | nil => rfl
  | cons p l ih =>
    rw [List.insertionSort]
    by_cases hp : p.2 = c
    · rw [filter_orderedInsert_of_eq p c hp, ih, List.filter_cons]
      simp [hp]
    · rw [filter_orderedInsert_of_ne p c hp, ih, List.filter_cons]
      simp [hp]

/-- C5: find_similar_scripts returns only candidates scoring at least the
threshold (part 1); the result is sorted descending by score (part 2); it is
a permutation of the filtered score list (part 3) that preserves, score class
by score class, the input relative order — the stable-sort characterisation
(part 4); and the comparison is case-insensitive: any query with the same
lowercasing ranks identically (part 5). -/
theorem C5_find_similar_scripts_rank :
    ∀ (input : String) (available_scripts : List String) (threshold : ℚ),
      (∀ p ∈ find_similar_scripts input available_scripts threshold, threshold ≤ p.2)
      ∧ (find_similar_scripts input available_scripts threshold).Sorted scoreGE
      ∧ (find_similar_scripts input available_scripts threshold).Perm
          (scored_matches input available_scripts threshold)
      ∧ (∀ c : ℚ,
          (find_similar_scripts input available_scripts threshold).filter
              (fun q => decide (q.2 = c)) =
            (scored_matches input available_scripts threshold).filter
              (fun q => decide (q.2 = c)))
      ∧ (∀ input2, lowercase input2 = lowercase input →
          find_similar_scripts input2 available_scripts threshold =
            find_similar_scripts input available_scripts threshold) := by
  intro input available_scripts threshold
  refine ⟨?_, ?_, ?_, ?_, ?_⟩
  · intro p hp
    unfold find_similar_scripts at hp
    rw [List.mem_insertionSort] at hp
    unfold scored_matches at hp
    simpa using (List.mem_filter.mp hp).2
  · exact List.sorted_insertionSort scoreGE _
  · exact List.perm_insertionSort scoreGE _
  · intro c
    exact filter_insertionSort c _
  · intro input2 h
    unfold find_similar_scripts scored_matches
    rw [h]

theorem C5_find_similar_scripts_rank_witness :
    ((0 : ℚ) ≤ ("a", similarity_score (lowercase "a") (lowercase "a")).2)
      ∧ find_similar_scripts "A" ["a"] 0 = find_similar_scripts "a" ["a"] 0 := by
  constructor
  · apply (C5_find_similar_scripts_rank "a" ["a"] 0).1
    unfold find_similar_scripts scored_matches
    rw [List.mem_insertionSort]
    simp only [List.map]
    rw [List.filter_cons,
      similarity_eval (show levenshtein_distance (lowercase "a") (lowercase "a") = 0
          from by decide)
        (show max (lowercase "a").utf8ByteSize (lowercase "a").utf8ByteSize = 1
          from by decide) (by norm_num)]
    have hc : (0 : ℚ) ≤ 1 - 0/1 := by norm_num
    simp [hc]
  · exact (C5_find_similar_scripts_rank "a" ["a"] 0).2.2.2.2 "A" (by decide)

/-- C6: suggest_script returns the head of the ranking at threshold 0.5
(part 1); it returns none when the candidate list is empty (part 2) or when
no candidate clears the threshold (part 3); and for the known names
dev, build, test, start with query "tets" it returns "test" (part 4). -/
theorem C6_suggest_script_top :
    ∀ (input : String) (available_scripts : List String),
      suggest_script input available_scripts =
        (find_similar_scripts input available_scripts (1/2)).head?.map (fun m => m.1)
      ∧ (available_scripts = [] → suggest_script input available_scripts = none)
      ∧ ((∀ s ∈ available_scripts,
            similarity_score (lowercase input) (lowercase s) < 1/2) →
          suggest_script input available_scripts = none)
      ∧ suggest_script "tets" ["dev", "build", "test", "start"] = some "test" := by
  intro input available_scripts
  refine ⟨rfl, ?_, ?_, ?_⟩
  · rintro rfl; rfl
  · intro h
    have hempty : scored_matches input available_scripts (1/2) = [] := by
      unfold scored_matches
      rw [List.filter_eq_nil_iff]
      intro m hm
      obtain ⟨s, hs, rfl⟩ := List.mem_map.mp hm
      simpa using not_le.mpr (h s hs)
    unfold suggest_script find_similar_scripts
    rw [hempty]
    rfl
  · have e1 : similarity_score (lowercase "tets") (lowercase "dev") = 1 - (3 : ℚ)/4 :=
      similarity_eval (by decide) (by decide) (by norm_num)
    have e2 : similarity_score (lowercase "tets") (lowercase "build") = 1 - (5 : ℚ)/5 :=
      similarity_eval (by decide) (by decide) (by norm_num)
    have e3 : similarity_score (lowercase "tets") (lowercase "test") = 1 - (2 : ℚ)/4 :=
      similarity_eval (by decide) (by decide) (by norm_num)
    have e4 : similarity_score (lowercase "tets") (lowercase "start") = 1 - (4 : ℚ)/5 :=
      similarity_eval (by decide) (by decide) (by norm_num)
    unfold suggest_script find_similar_scripts scored_matches
    simp only [List.map]
    rw [e1, e2, e3, e4, List.filter_cons, List.filter_cons, List.filter_cons,
      List.filter_cons]
    have h1 : ¬((1 : ℚ)/2 ≤ 1 - 3/4) := by norm_num
    have h2 : ¬((1 : ℚ)/2 ≤ 1 - 5/5) := by norm_num
    have h3 : (1 : ℚ)/2 ≤ 1 - 2/4 := by norm_num
    have h4 : ¬((1 : ℚ)/2 ≤ 1 - 4/5) := by norm_num
    simp only [h1, h2, h3, h4, decide_eq_true_eq, decide_eq_false_iff_not, if_true, if_false,
      ite_true, ite_false]
    simp [List.insertionSort, List.orderedInsert]

theorem C6_suggest_script_top_witness :
    suggest_script "q" [] = none ∧ suggest_script "zzzz" ["dev"] = none := by
  constructor
  · exact (C6_suggest_script_top "q" []).2.1 rfl
  · apply (C6_suggest_script_top "zzzz" ["dev"]).2.2.1
    intro s hs
    rw [List.mem_singleton.mp hs,
      similarity_eval (show levenshtein_distance (lowercase "zzzz") (lowercase "dev") = 4
          from by decide)
        (show max (lowercase "zzzz").utf8ByteSize (lowercase "dev").utf8ByteSize = 4
          from by decide) (by norm_num)]
    norm_num

/-- C7: levenshtein_distance is the minimum number of single-character
insertions, deletions and substitutions over Unicode code points turning a
into b — it is achieved by some edit chain (part 1) and is a lower bound for
every edit chain (part 2) — and it satisfies distance(a,a) = 0 (part 3),
distance(a,"") = length a in code points (part 4), and symmetry (part 5). -/
theorem C7_levenshtein_distance_minimality :
    ∀ a b : String,
      EditChain (levenshtein_distance a b) a.data b.data
      ∧ (∀ n, EditChain n a.data b.data → levenshtein_distance a b ≤ n)
      ∧ levenshtein_distance a a = 0
      ∧ levenshtein_distance a "" = a.data.length
      ∧ levenshtein_distance a b = levenshtein_distance b a := by
  intro a b
  refine ⟨?_, ?_, ?_, ?_, ?_⟩
  · rw [levenshtein_distance_eq_lev]; exact editChain_lev a.data b.data
  · intro n h; rw [levenshtein_distance_eq_lev]; exact editChain_lev_le h
  · rw [levenshtein_distance_eq_lev]; exact lev_self a.data
  · rw [levenshtein_distance_eq_lev]; exact lev_nil_right a.data
  · rw [levenshtein_distance_eq_lev, levenshtein_distance_eq_lev]; exact lev_comm a.data b.data

theorem C7_levenshtein_distance_minimality_witness :
    levenshtein_distance "ab" "ab" ≤ 0 ∧ levenshtein_distance "ab" "b" ≤ 1 :=
  ⟨(C7_levenshtein_distance_minimality "ab" "ab").2.1 0 (EditChain.refl _),
   (C7_levenshtein_distance_minimality "ab" "b").2.1 1
     (EditChain.step (EditStep.delete [] ['b'] 'a') (EditChain.refl _))⟩

theorem C10_source_file_amended_witness :
    (parse_makefile_targets none (some "build:\n\tgcc\n")).map (fun sl => sl.source_file) =
      some "Makefile" := by
  have h := C10_source_file_amended.2.2.2 none (some "build:\n\tgcc\n")
    { scripts := [{ name := "build", command := "make build" }], source_file := "Makefile" }
    (by decide)
  rw [show parse_makefile_targets none (some "build:\n\tgcc\n") =
    some { scripts := [{ name := "build", command := "make build" }],
           source_file := "Makefile" } from by decide]
  exact congrArg some h

end Devrunner
